import Mathlib

/-!
Verification of the perturbopy band-structure analysis subsystem.

Shallow embedding of `perturbopy/postproc/calc_modes/bands_calc_mode.py` and
`perturbopy/postproc/calc_modes/dynamics_run_calc_mode.py`, together with proofs
about the embedded operations.

Conventions:
* Python floats are modelled as exact rationals (`ℚ`) on the data side; values that
  genuinely involve `π` or square roots (the effective-mass pipeline) live in `ℝ`.
* Python exceptions are modelled by `Except PErr` results.
* `numpy` primitives (`np.min`, `np.argmin`, ...) are modelled by the list
  functions below; `np.argmin`/`np.argmax` return the index of the first
  occurrence of the extremal value, which is exactly `List.indexOf` of the
  extremum.
-/

namespace Perturbopy

/-- The Python exception kinds that the embedded code can raise. -/
inductive PErr where
  | valueError
  | keyError
  | typeError
  | indexError
  | lookupError
  deriving DecidableEq, Repr

instance {ε α : Type} [DecidableEq ε] [DecidableEq α] : DecidableEq (Except ε α) := fun a b =>
  match a, b with
  | .ok x, .ok y =>
      if h : x = y then .isTrue (by rw [h]) else .isFalse (by intro hc; injection hc; exact h (by assumption))
  | .error x, .error y =>
      if h : x = y then .isTrue (by rw [h]) else .isFalse (by intro hc; injection hc; exact h (by assumption))
  | .ok _, .error _ => .isFalse (by intro hc; exact Except.noConfusion hc)
  | .error _, .ok _ => .isFalse (by intro hc; exact Except.noConfusion hc)

/-- A 3-vector of rationals: one column of the `kpt.points` array. -/
abbrev Vec3 : Type := ℚ × ℚ × ℚ

/-- Componentwise difference of 3-vectors. -/
def sub3 (u v : Vec3) : Vec3 := (u.1 - v.1, u.2.1 - v.2.1, u.2.2 - v.2.2)

/-- Dot product of 3-vectors (`np.dot` of a 3-vector with a column). -/
def dot3 (u v : Vec3) : ℚ := u.1 * v.1 + u.2.1 * v.2.1 + u.2.2 * v.2.2

/-- Squared Euclidean norm of a 3-vector; `np.linalg.norm(v) ** 2`, kept in `ℚ`
so that it is exact. -/
def normSq (v : Vec3) : ℚ := v.1 ^ 2 + v.2.1 ^ 2 + v.2.2 ^ 2

/-- Model of `np.min` on a nonempty 1-D array; the empty case never arises in guarded code. -/
def npMin : List ℚ → ℚ
  | [] => 0
  | x :: xs => xs.foldl min x

/-- Model of `np.max` on a nonempty 1-D array. -/
def npMax : List ℚ → ℚ
  | [] => 0
  | x :: xs => xs.foldl max x

/-- Model of `np.argmin`: index of the first occurrence of the minimum. -/
def npArgmin (l : List ℚ) : Nat := l.indexOf (npMin l)

/-- Model of `np.argmax`: index of the first occurrence of the maximum. -/
def npArgmax (l : List ℚ) : Nat := l.indexOf (npMax l)

/-- The state of a `BandsCalcMode` object after construction (lines 31-51 of
`bands_calc_mode.py`).

* `numBands` — the popped number-of-bands entry.
* `energies` — `self.bands.energies`: per band index, the energies at each k-point.
* `points` — the columns of `self.kpt.points`.
* `alat` — `self.alat` (lattice parameter, as stored).
* `energyFactor` — value of the external
  `energy_conversion_factor(self.energy_units, "hartree")` call; the conversion
  utilities are out of scope per the spec (§1, §6) and enter only as this scalar. -/
structure BandsData where
  numBands : Nat
  energies : Nat → List ℚ
  points : List Vec3
  alat : ℚ
  energyFactor : ℚ

/-- Modelled from the spec: `self.bands.indices`, the valid band-index list.  The energy
database class is not among the provided source files; spec §3 states `indices` is the
contiguous range `1..num_bands`, stored as a list in band order. -/
def bandIndices (st : BandsData) : List Nat := List.range' 1 st.numBands

/-- Embedding of `BandsCalcMode.compute_indirect_bandgap` (lines 78-89):
membership check on the stored band-index list, ordering check, then
`gap = np.min(energies[n_upper]) - np.max(energies[n_lower])`,
`lower_kpt = points[:, np.argmax(energies[n_lower])]`,
`upper_kpt = points[:, np.argmin(energies[n_upper])]`. -/
def compute_indirect_bandgap (st : BandsData) (n_lower n_upper : Nat) :
    Except PErr (ℚ × Vec3 × Vec3) :=
  if n_lower ∉ bandIndices st ∨ n_upper ∉ bandIndices st then .error .valueError
  else if n_upper < n_lower then .error .valueError
  else
    .ok (npMin (st.energies n_upper) - npMax (st.energies n_lower),
         st.points.getD (npArgmax (st.energies n_lower)) (0, 0, 0),
         st.points.getD (npArgmin (st.energies n_upper)) (0, 0, 0))

/-- Embedding of `BandsCalcMode.compute_direct_bandgap` (lines 115-125).

Line 121 reads `transitions = self.bands.indices[n_upper] - self.bands.indices[n_lower]`:
it subtracts entries of the band-index LIST (positional indexing), not band energies,
so `transitions` is the scalar `indices[n_upper] - indices[n_lower]`;
`np.min` of a scalar is the scalar and `np.argmin` of a scalar is `0`, so the
returned k-point is always the first stored point.  Positional indexing raises
`IndexError` when `n_upper` equals the list length (i.e. `n_upper = num_bands`).

Line 115 guards with `self.band_indices`; that attribute is not defined in the
provided sources.  Modelled from the spec: §9 identifies the name as a mismatch
for the authoritative index set of the energy database, so the guard is modelled with
`bandIndices` (the same set used by the indirect method). -/
def compute_direct_bandgap (st : BandsData) (n_lower n_upper : Nat) :
    Except PErr (ℚ × Vec3) :=
  if n_lower ∉ bandIndices st ∨ n_upper ∉ bandIndices st then .error .valueError
  else if n_upper < n_lower then .error .valueError
  else
    match (bandIndices st)[n_upper]?, (bandIndices st)[n_lower]? with
    | some iu, some il => .ok ((iu : ℚ) - (il : ℚ), st.points.getD 0 (0, 0, 0))
    | _, _ => .error .indexError

/-- A concrete analyzer state used to exercise the bandgap methods:
three bands over two k-points, with energies
`1 ↦ [0, 0]`, `2 ↦ [5, 6]`, `3 ↦ [9, 9]`. -/
def gapSt : BandsData where
  numBands := 3
  energies := fun n => if n = 1 then [0, 0] else if n = 2 then [5, 6] else
    if n = 3 then [9, 9] else []
  points := [(0, 0, 0), (1, 0, 0)]
  alat := 1
  energyFactor := 1

/-- The end-to-end scenario from the spec: two bands at three k-points with
`band1 = [-1, -2, -1.5]` and `band2 = [2, 1, 3]`. -/
def scenarioSt : BandsData where
  numBands := 2
  energies := fun n => if n = 1 then [-1, -2, -3/2] else if n = 2 then [2, 1, 3] else []
  points := [(0, 0, 0), (1, 0, 0), (2, 0, 0)]
  alat := 1
  energyFactor := 1

/-- The tolerance `epsilon = 1e-2` (line 151). -/
def epsilon : ℚ := 1 / 100

/-- Line 159 test `np.linalg.norm(p - kpoint) < max_distance`, in exact squared form:
since the norm is nonnegative, it is below `max_distance` iff `max_distance` is positive
and the squared norm is below `max_distance²` (equivalence proved in `distanceOK_iff`). -/
def distanceOK (c p : Vec3) (maxd : ℚ) : Prop :=
  0 < maxd ∧ normSq (sub3 p c) < maxd ^ 2

instance (c p : Vec3) (maxd : ℚ) : Decidable (distanceOK c p maxd) := by
  unfold distanceOK
  infer_instance

/-- Line 160 test `np.dot(kpoint, p) / (‖kpoint‖·‖p‖) - 1 < epsilon`, in exact squared
form (equivalence proved in `parallelOK_iff`).  Under numpy float semantics a zero norm
makes the quotient `nan` and the comparison false, hence the nonzero-norm conjuncts;
otherwise the comparison holds iff the dot product is negative or its square is below
`(1 + ε)²‖c‖²‖p‖²`. -/
def parallelOK (c p : Vec3) : Prop :=
  normSq c ≠ 0 ∧ normSq p ≠ 0 ∧
    (dot3 c p < 0 ∨ (dot3 c p) ^ 2 < (1 + epsilon) ^ 2 * (normSq c * normSq p))

instance (c p : Vec3) : Decidable (parallelOK c p) := by
  unfold parallelOK
  infer_instance

/-- Modelled from the spec: `RecipPtDB.where`.  The reciprocal-point database class is not
among the provided source files; spec §4.1 states the lookup returns the index of the
point matching the coordinate exactly and fails with a lookup error when no point
matches.  The first matching index is returned. -/
def kptWhere (points : List Vec3) (c : Vec3) : Option Nat :=
  if c ∈ points then some (points.indexOf c) else none

/-- Lines 159-162: `kpoint_indices`, the indices of the k-points that are within
`max_distance` of the center and pass the parallel-direction test. -/
def selectedIndices (st : BandsData) (c : Vec3) (maxd : ℚ) : List Nat :=
  (List.range st.points.length).filter fun k =>
    decide (distanceOK c (st.points.getD k (0, 0, 0)) maxd) &&
      decide (parallelOK c (st.points.getD k (0, 0, 0)))

/-- The exact squared distances `np.sum(np.square(kpt_points - kpoint), axis=0)` of the
selected k-points from the center (line 166 before the `(2π/alat)²` factor). -/
def fitDs (st : BandsData) (c : Vec3) (maxd : ℚ) : List ℚ :=
  (selectedIndices st c maxd).map fun k => normSq (sub3 (st.points.getD k (0, 0, 0)) c)

/-- The `(math.pi * 2 / self.alat) ** 2` factor of line 166.  Note that line 166 uses the
raw `self.alat`: the bohr-converted local `alat` computed on line 156 is never used. -/
noncomputable def kScale (st : BandsData) : ℝ := (2 * Real.pi / (st.alat : ℝ)) ^ 2

/-- The array `kpoint_distances_squared` (line 166): the independent variable of the fit. -/
noncomputable def fitXs (st : BandsData) (c : Vec3) (maxd : ℚ) : List ℝ :=
  (fitDs st c maxd).map fun d : ℚ => (d : ℝ) * kScale st

/-- Line 163: the hartree-converted energies of band `n` (line 155) restricted to the
selected k-points — the dependent variable of the fit. -/
def fitYs (st : BandsData) (n : Nat) (c : Vec3) (maxd : ℚ) : List ℚ :=
  (selectedIndices st c maxd).map fun k => (st.energies n).getD k 0 * st.energyFactor

/-- Line 157: `E_0`, the converted energy stored at the center k-point (index `i`). -/
def E0val (st : BandsData) (n : Nat) (i : Nat) : ℚ :=
  (st.energies n).getD i 0 * st.energyFactor

/-- Sum of squared residuals of the model of lines 168-169,
`parabolic_approx(x) = θ·x + E_0` with `E_0` fixed: the single free parameter is `θ`
(the parameter the spec calls prefactor). -/
def SSR (xs ys : List ℝ) (E0 θ : ℝ) : ℝ :=
  (List.zipWith (fun x y => (θ * x + E0 - y) ^ 2) xs ys).sum

/-- Modelled from the spec: `fit_params[0]`.  Here `scipy.optimize.curve_fit` is an external
collaborator which §6 specifies as returning the parameters minimizing the sum of squared
residuals; for the model of lines 168-169 the unique minimizer of `SSR` in the single
effective parameter has this closed form (`ssr_shift` below proves minimality and
uniqueness).  The spurious second parameter of the Python model function (`energy`) does
not occur in the model expression, so it does not influence `fit_params[0]`. -/
noncomputable def fitA (xs ys : List ℝ) (E0 : ℝ) : ℝ :=
  (List.zipWith (fun x y => x * (y - E0)) xs ys).sum / (xs.map fun x => x ^ 2).sum

/-- The argument passed for `show_plot`: the parameter is documented as a boolean, but
line 175 invokes it as `show_plot()`, so a caller could also pass a zero-argument
callable (modelled with the boolean it would return). -/
inductive ShowPlot where
  | bool (b : Bool)
  | callable (b : Bool)

/-- Embedding of `BandsCalcMode.compute_effective_mass` (lines 127-180): resolve the center k-point
(`self.kpt.where`, line 157 — lookup error when absent), fit the constrained parabola on
the selected neighborhood, compute `effective_mass = 1 / (fit_params[0] * 2)` (line 173),
then execute `if show_plot():` (line 175) — calling a boolean raises `TypeError`, so only
a callable argument lets the method return; plotting itself is a pure side effect. -/
noncomputable def compute_effective_mass (st : BandsData) (n : Nat) (c : Vec3) (maxd : ℚ)
    (show_plot : ShowPlot) : Except PErr ℝ :=
  match kptWhere st.points c with
  | none => .error .lookupError
  | some i =>
    let a := fitA (fitXs st c maxd) ((fitYs st n c maxd).map fun y : ℚ => (y : ℝ))
      ((E0val st n i : ℚ) : ℝ)
    let effective_mass := 1 / (a * 2)
    match show_plot with
    | .bool _ => .error .typeError
    | .callable _ => .ok effective_mass

/-- The neighborhood criterion as the spec and claim word it: the normalized dot product
of the point direction with the center-to-origin direction lies within `ε` of 1
(collinearity). -/
def specCollinear (c p : Vec3) : Prop :=
  |((dot3 c p : ℚ) : ℝ) /
      (Real.sqrt ((normSq c : ℚ) : ℝ) * Real.sqrt ((normSq p : ℚ) : ℝ)) - 1|
    < ((epsilon : ℚ) : ℝ)

/-- A concrete analyzer state for the effective-mass method: two k-points, the second
perpendicular to the first. -/
def effSt : BandsData where
  numBands := 1
  energies := fun n => if n = 1 then [3, 5] else []
  points := [(1, 0, 0), (0, 1, 0)]
  alat := 1
  energyFactor := 1

/-- A concrete analyzer state with collinear k-points. -/
def fitSt : BandsData where
  numBands := 1
  energies := fun n => if n = 1 then [3, 5] else []
  points := [(1, 0, 0), (2, 0, 0)]
  alat := 1
  energyFactor := 1

/-- The ambient filesystem: which paths name existing files (`os.path.isfile`). -/
structure FileSystem where
  isfile : String → Bool

/-- Embedding of `from_hdf5_yaml` (lines 76-87): existence checks for the YAML path, the cdyna HDF5
path and the tet HDF5 path, in that order, each raising `FileNotFoundError` naming the
missing path; only after all three pass are the files opened (`open_yaml`/`open_hdf5`,
lines 83-85) and the constructor invoked.  The first component records the missing path
(if any), the second the files opened, in order. -/
def from_hdf5_yaml (fs : FileSystem) (cdyna_path tet_path yaml_path : String) :
    Option String × List String :=
  if ¬ fs.isfile yaml_path then (some yaml_path, [])
  else if ¬ fs.isfile cdyna_path then (some cdyna_path, [])
  else if ¬ fs.isfile tet_path then (some tet_path, [])
  else (none, [yaml_path, cdyna_path, tet_path])

/-- What the constructor sees of `pert_dict`: the calculation-mode tag and the bands
sub-dictionary, an insertion-ordered key-value list with unique keys.
Modelled from the spec: `CalcMode.__init__` — the base-class file is not among the
provided sources, and §6 describes construction as taking the raw mapping as is (no
copying step), so the base class stores the supplied mapping and the pops of lines 41-48
act on the dictionary held by the caller. -/
structure PertDict (V : Type) where
  calc_mode : String
  bands : List (String × V)

/-- Python `dict.pop(k)`: the value bound to `k` and the dictionary without that binding;
`none` models the `KeyError` raised when `k` is absent. -/
def popKey {V : Type} (k : String) : List (String × V) → Option (V × List (String × V))
  | [] => none
  | (k', v) :: rest =>
    if k' = k then some (v, rest)
    else
      match popKey k rest with
      | none => none
      | some (v', rest') => some (v', (k', v) :: rest')

/-- The seven bands-dictionary entries consumed by the constructor, in pop order
(lines 41-48). -/
def bandsKeys : List String :=
  ["k-path coordinate units", "k-path coordinates", "k-point coordinate units",
   "k-point coordinates", "band index", "number of bands", "band units"]

/-- The successive pops of lines 41-48, as one traversal. -/
def popAll {V : Type} : List String → List (String × V) → Option (List V × List (String × V))
  | [], d => some ([], d)
  | k :: ks, d =>
    match popKey k d with
    | none => none
    | some (v, d') =>
      match popAll ks d' with
      | none => none
      | some (vs, d'') => some (v :: vs, d'')

/-- Embedding of `BandsCalcMode.__init__` (lines 31-51) in explicit state-passing form: check the
calculation mode (line 38, `ValueError` on mismatch), then pop the seven consumed entries
from the bands sub-dictionary.  Returns the popped values together with the dictionary of
the caller in its post-construction state. -/
def bandsInit {V : Type} (d : PertDict V) : Except PErr (List V × PertDict V) :=
  if d.calc_mode = "bands" then
    match popAll bandsKeys d.bands with
    | none => .error .keyError
    | some (vs, b') => .ok (vs, { d with bands := b' })
  else .error .valueError

/-- A concrete bands dictionary with all seven consumed entries plus one extra. -/
def exDict : PertDict Nat where
  calc_mode := "bands"
  bands := [("k-path coordinate units", 10), ("k-path coordinates", 11),
            ("k-point coordinate units", 12), ("k-point coordinates", 13),
            ("band index", 14), ("number of bands", 15), ("band units", 16),
            ("number of symmetry lines", 17)]

theorem getD_eq_getElem' {α : Type} (l : List α) (d : α) {n : Nat} (h : n < l.length) :
    l.getD n d = l[n] := by
  simp [List.getD_eq_getElem?_getD, List.getElem?_eq_getElem h]

theorem foldl_min_le_init (x : ℚ) (xs : List ℚ) : xs.foldl min x ≤ x := by
  induction xs generalizing x with
  | nil => exact le_refl x
  | cons y ys ih => exact le_trans (ih (min x y)) (min_le_left x y)

theorem foldl_min_le_mem (x a : ℚ) (xs : List ℚ) (ha : a ∈ xs) : xs.foldl min x ≤ a := by
  induction xs generalizing x with
  | nil => cases ha
  | cons y ys ih =>
      rcases List.mem_cons.mp ha with h | h
      · subst h
        exact le_trans (foldl_min_le_init (min x a) ys) (min_le_right x a)
      · exact ih _ h

theorem foldl_min_mem (x : ℚ) (xs : List ℚ) : xs.foldl min x ∈ x :: xs := by
  induction xs generalizing x with
  | nil => exact List.mem_singleton.mpr rfl
  | cons y ys ih =>
      rcases List.mem_cons.mp (ih (min x y)) with h | h
      · rcases min_choice x y with hc | hc
        · exact List.mem_cons.mpr (Or.inl (h.trans hc))
        · exact List.mem_cons.mpr (Or.inr (List.mem_cons.mpr (Or.inl (h.trans hc))))
      · exact List.mem_cons.mpr (Or.inr (List.mem_cons.mpr (Or.inr h)))

theorem npMin_le {l : List ℚ} {a : ℚ} (ha : a ∈ l) : npMin l ≤ a := by
  cases l with
  | nil => cases ha
  | cons x xs =>
      rcases List.mem_cons.mp ha with h | h
      · exact h ▸ foldl_min_le_init x xs
      · exact foldl_min_le_mem x a xs h

theorem npMin_mem {l : List ℚ} (h : l ≠ []) : npMin l ∈ l := by
  cases l with
  | nil => exact absurd rfl h
  | cons x xs => exact foldl_min_mem x xs

theorem foldl_max_le_init (x : ℚ) (xs : List ℚ) : x ≤ xs.foldl max x := by
  induction xs generalizing x with
  | nil => exact le_refl x
  | cons y ys ih => exact le_trans (le_max_left x y) (ih (max x y))

theorem foldl_max_le_mem (x a : ℚ) (xs : List ℚ) (ha : a ∈ xs) : a ≤ xs.foldl max x := by
  induction xs generalizing x with
  | nil => cases ha
  | cons y ys ih =>
      rcases List.mem_cons.mp ha with h | h
      · subst h
        exact le_trans (le_max_right x a) (foldl_max_le_init (max x a) ys)
      · exact ih _ h

theorem foldl_max_mem (x : ℚ) (xs : List ℚ) : xs.foldl max x ∈ x :: xs := by
  induction xs generalizing x with
  | nil => exact List.mem_singleton.mpr rfl
  | cons y ys ih =>
      rcases List.mem_cons.mp (ih (max x y)) with h | h
      · rcases max_choice x y with hc | hc
        · exact List.mem_cons.mpr (Or.inl (h.trans hc))
        · exact List.mem_cons.mpr (Or.inr (List.mem_cons.mpr (Or.inl (h.trans hc))))
      · exact List.mem_cons.mpr (Or.inr (List.mem_cons.mpr (Or.inr h)))

theorem le_npMax {l : List ℚ} {a : ℚ} (ha : a ∈ l) : a ≤ npMax l := by
  cases l with
  | nil => cases ha
  | cons x xs =>
      rcases List.mem_cons.mp ha with h | h
      · exact h ▸ foldl_max_le_init x xs
      · exact foldl_max_le_mem x a xs h

theorem npMax_mem {l : List ℚ} (h : l ≠ []) : npMax l ∈ l := by
  cases l with
  | nil => exact absurd rfl h
  | cons x xs => exact foldl_max_mem x xs

theorem npArgmin_lt {l : List ℚ} (h : l ≠ []) : npArgmin l < l.length :=
  List.indexOf_lt_length.mpr (npMin_mem h)

theorem getD_npArgmin {l : List ℚ} (h : l ≠ []) : l.getD (npArgmin l) 0 = npMin l := by
  rw [getD_eq_getElem' _ _ (npArgmin_lt h)]
  exact List.getElem_indexOf _

theorem npArgmin_first {l : List ℚ} {k : Nat} (hk : k < npArgmin l)
    (hkl : k < l.length) : l[k] ≠ npMin l := by
  have hk' : k < l.findIdx fun x => x == npMin l := hk
  have := List.not_of_lt_findIdx hk'
  simpa using this

theorem npArgmax_lt {l : List ℚ} (h : l ≠ []) : npArgmax l < l.length :=
  List.indexOf_lt_length.mpr (npMax_mem h)

theorem getD_npArgmax {l : List ℚ} (h : l ≠ []) : l.getD (npArgmax l) 0 = npMax l := by
  rw [getD_eq_getElem' _ _ (npArgmax_lt h)]
  exact List.getElem_indexOf _

theorem npArgmax_first {l : List ℚ} {k : Nat} (hk : k < npArgmax l)
    (hkl : k < l.length) : l[k] ≠ npMax l := by
  have hk' : k < l.findIdx fun x => x == npMax l := hk
  have := List.not_of_lt_findIdx hk'
  simpa using this

theorem mem_bandIndices {st : BandsData} {n : Nat} :
    n ∈ bandIndices st ↔ 1 ≤ n ∧ n < 1 + st.numBands := by
  simp [bandIndices, List.mem_range'_1]

/-- On valid, ordered arguments the indirect-bandgap method returns the min/max
combination together with the first-occurrence arg-extremal k-points. -/
theorem compute_indirect_bandgap_eq (st : BandsData) (nl nu : Nat)
    (hl : nl ∈ bandIndices st) (hu : nu ∈ bandIndices st) (hle : nl ≤ nu) :
    compute_indirect_bandgap st nl nu =
      .ok (npMin (st.energies nu) - npMax (st.energies nl),
           st.points.getD (npArgmax (st.energies nl)) (0, 0, 0),
           st.points.getD (npArgmin (st.energies nu)) (0, 0, 0)) := by
  unfold compute_indirect_bandgap
  rw [if_neg (by push_neg; exact ⟨hl, hu⟩), if_neg (by omega)]

/-- On valid, ordered arguments with `n_upper < num_bands`, the direct-bandgap method
returns the band-index difference `indices[n_upper] - indices[n_lower] = n_upper - n_lower`
(a consequence of line 121 subtracting index-list entries) and the first k-point. -/
theorem compute_direct_bandgap_eq (st : BandsData) (nl nu : Nat)
    (hl : nl ∈ bandIndices st) (hu : nu ∈ bandIndices st) (hle : nl ≤ nu)
    (hnu : nu < st.numBands) :
    compute_direct_bandgap st nl nu =
      .ok ((nu : ℚ) - (nl : ℚ), st.points.getD 0 (0, 0, 0)) := by
  have hnl : nl < st.numBands := lt_of_le_of_lt hle hnu
  unfold compute_direct_bandgap
  rw [if_neg (by push_neg; exact ⟨hl, hu⟩), if_neg (by omega)]
  have h1 : (bandIndices st)[nu]? = some (1 + 1 * nu) :=
    List.getElem?_range' 1 1 (by simpa [bandIndices] using hnu)
  have h2 : (bandIndices st)[nl]? = some (1 + 1 * nl) :=
    List.getElem?_range' 1 1 (by simpa [bandIndices] using hnl)
  rw [bandIndices] at h1 h2
  rw [bandIndices, h1, h2]
  show Except.ok (((1 + 1 * nu : Nat) : ℚ) - ((1 + 1 * nl : Nat) : ℚ), st.points.getD 0 (0, 0, 0)) = _
  have : ((1 + 1 * nu : Nat) : ℚ) - ((1 + 1 * nl : Nat) : ℚ) = (nu : ℚ) - (nl : ℚ) := by
    push_cast
    ring
  rw [this]

/-- C1: on `gapSt` with `n_lower = 1`, `n_upper = 2`, `compute_direct_bandgap` returns
gap `1` — the difference `indices[2] - indices[1] = 3 - 2` of band-index list entries —
and always the first k-point, whereas the point-wise energy difference
`energies[2] - energies[1] = [5, 6]` has minimum `5`.  The claimed behaviour
(gap = minimum point-wise energy difference, at the k-point attaining it) fails. -/
theorem direct_bandgap_returns_index_difference :
    compute_direct_bandgap gapSt 1 2 = .ok (1, (0, 0, 0)) ∧
    npMin (List.zipWith (fun eu el => eu - el) (gapSt.energies 2) (gapSt.energies 1)) = 5 ∧
    (1 : ℚ) ≠ 5 := by
  refine ⟨?_, ?_, by norm_num⟩
  · rw [compute_direct_bandgap_eq gapSt 1 2 (by decide) (by decide) (by decide) (by decide)]
    norm_num
    decide
  · show npMin (List.zipWith (fun eu el => eu - el) [5, 6] [0, 0]) = 5
    norm_num [npMin, min_def]

/-- C3: on `gapSt` the direct-bandgap method returns gap `1` while the indirect-bandgap
method returns gap `5`, so the claimed inequality direct ≥ indirect fails on the code. -/
theorem direct_gap_lt_indirect_gap_on_gapSt :
    compute_direct_bandgap gapSt 1 2 = .ok (1, (0, 0, 0)) ∧
    compute_indirect_bandgap gapSt 1 2 = .ok (5, (0, 0, 0), (0, 0, 0)) ∧
    (1 : ℚ) < 5 := by
  refine ⟨?_, ?_, by norm_num⟩
  · rw [compute_direct_bandgap_eq gapSt 1 2 (by decide) (by decide) (by decide) (by decide)]
    norm_num
    decide
  · rw [compute_indirect_bandgap_eq gapSt 1 2 (by decide) (by decide) (by decide)]
    have h2 : gapSt.energies 2 = [5, 6] := rfl
    have h1 : gapSt.energies 1 = [0, 0] := rfl
    rw [h1, h2]
    have hmin : npMin [(5 : ℚ), 6] = 5 := by norm_num [npMin, min_def]
    have hmax : npMax [(0 : ℚ), 0] = 0 := by norm_num [npMax, max_def]
    rw [npArgmin, npArgmax, hmin, hmax]
    norm_num [List.indexOf_cons]
    decide

/-- C2: for every analyzer state whose band data is aligned with the k-points, and all
valid band indices `n_lower ≤ n_upper`, `compute_indirect_bandgap` returns
`gap = min(energies[n_upper]) - max(energies[n_lower])` together with the k-point where
the lower band attains its maximum and the k-point where the upper band attains its
minimum, ties broken by first occurrence in point order: the returned gap is the
difference of energies at indices `i` and `j` such that `energies[n_upper]` is minimal at
`i` and at no earlier index, and `energies[n_lower]` is maximal at `j` and at no earlier
index, and the returned k-points are the ones at indices `j` and `i`. -/
theorem indirect_bandgap_spec (st : BandsData) (nl nu : Nat)
    (hl : nl ∈ bandIndices st) (hu : nu ∈ bandIndices st) (hle : nl ≤ nu)
    (hNl : (st.energies nl).length = st.points.length)
    (hNu : (st.energies nu).length = st.points.length)
    (hne : st.points ≠ []) :
    ∃ i j, i < st.points.length ∧ j < st.points.length ∧
      compute_indirect_bandgap st nl nu =
        .ok ((st.energies nu).getD i 0 - (st.energies nl).getD j 0,
             st.points.getD j (0, 0, 0), st.points.getD i (0, 0, 0)) ∧
      (∀ k, k < st.points.length → (st.energies nu).getD i 0 ≤ (st.energies nu).getD k 0) ∧
      (∀ k, k < i → (st.energies nu).getD i 0 < (st.energies nu).getD k 0) ∧
      (∀ k, k < st.points.length → (st.energies nl).getD k 0 ≤ (st.energies nl).getD j 0) ∧
      (∀ k, k < j → (st.energies nl).getD k 0 < (st.energies nl).getD j 0) := by
  have hpos : 0 < st.points.length := List.length_pos.mpr hne
  have hunil : st.energies nu ≠ [] := by
    rw [← List.length_pos, hNu]
    exact hpos
  have hlnil : st.energies nl ≠ [] := by
    rw [← List.length_pos, hNl]
    exact hpos
  refine ⟨npArgmin (st.energies nu), npArgmax (st.energies nl), ?_, ?_, ?_, ?_, ?_, ?_, ?_⟩
  · exact hNu ▸ npArgmin_lt hunil
  · exact hNl ▸ npArgmax_lt hlnil
  · rw [compute_indirect_bandgap_eq st nl nu hl hu hle,
      getD_npArgmin hunil, getD_npArgmax hlnil]
  · intro k hk
    rw [getD_npArgmin hunil, getD_eq_getElem' _ _ (hNu ▸ hk)]
    exact npMin_le (List.getElem_mem _)
  · intro k hk
    have hkl : k < (st.energies nu).length := lt_trans hk (npArgmin_lt hunil)
    rw [getD_npArgmin hunil, getD_eq_getElem' _ _ hkl]
    exact lt_of_le_of_ne (npMin_le (List.getElem_mem _)) (Ne.symm (npArgmin_first hk hkl))
  · intro k hk
    rw [getD_npArgmax hlnil, getD_eq_getElem' _ _ (hNl ▸ hk)]
    exact le_npMax (List.getElem_mem _)
  · intro k hk
    have hkl : k < (st.energies nl).length := lt_trans hk (npArgmax_lt hlnil)
    rw [getD_npArgmax hlnil, getD_eq_getElem' _ _ hkl]
    exact lt_of_le_of_ne (le_npMax (List.getElem_mem _)) (npArgmax_first hk hkl)

/-- Witness for C2 at the concrete state `gapSt` with bands 1 and 2. -/
theorem indirect_bandgap_spec_witness :
    (1 ∈ bandIndices gapSt ∧ 2 ∈ bandIndices gapSt ∧ 1 ≤ 2 ∧
      (gapSt.energies 1).length = gapSt.points.length ∧
      (gapSt.energies 2).length = gapSt.points.length ∧ gapSt.points ≠ []) ∧
    (∃ i j, i < gapSt.points.length ∧ j < gapSt.points.length ∧
      compute_indirect_bandgap gapSt 1 2 =
        .ok ((gapSt.energies 2).getD i 0 - (gapSt.energies 1).getD j 0,
             gapSt.points.getD j (0, 0, 0), gapSt.points.getD i (0, 0, 0)) ∧
      (∀ k, k < gapSt.points.length → (gapSt.energies 2).getD i 0 ≤ (gapSt.energies 2).getD k 0) ∧
      (∀ k, k < i → (gapSt.energies 2).getD i 0 < (gapSt.energies 2).getD k 0) ∧
      (∀ k, k < gapSt.points.length → (gapSt.energies 1).getD k 0 ≤ (gapSt.energies 1).getD j 0) ∧
      (∀ k, k < j → (gapSt.energies 1).getD k 0 < (gapSt.energies 1).getD j 0)) :=
  ⟨⟨by decide, by decide, by decide, by decide, by decide, by decide⟩,
   indirect_bandgap_spec gapSt 1 2 (by decide) (by decide) (by decide) (by decide)
     (by decide) (by decide)⟩

/-- C4 counterexample: in the scenario, `compute_indirect_bandgap(1, 2)` does NOT return
the k-point at index 1 as `lower_kpt`: the claimed result (both returned k-points equal
to the point at index 1) is false. -/
theorem scenario_lower_kpt_not_at_index_one :
    compute_indirect_bandgap scenarioSt 1 2 ≠
      .ok (2, scenarioSt.points.getD 1 (0, 0, 0), scenarioSt.points.getD 1 (0, 0, 0)) := by
  rw [compute_indirect_bandgap_eq scenarioSt 1 2 (by decide) (by decide) (by decide)]
  have h1 : scenarioSt.energies 1 = [-1, -2, -3/2] := rfl
  have h2 : scenarioSt.energies 2 = [2, 1, 3] := rfl
  rw [h1, h2]
  have hmin : npMin [(2 : ℚ), 1, 3] = 1 := by norm_num [npMin, min_def]
  have hmax : npMax [(-1 : ℚ), -2, -3/2] = -1 := by norm_num [npMax, max_def]
  rw [npArgmin, npArgmax, hmin, hmax]
  have hia : List.indexOf (-1 : ℚ) [-1, -2, -3/2] = 0 := by
    norm_num [List.indexOf_cons]
  have hib : List.indexOf (1 : ℚ) [2, 1, 3] = 1 := by
    norm_num [List.indexOf_cons]
  rw [hia, hib]
  intro hc
  injection hc with hc
  exact absurd (congrArg (fun t => t.2.1) hc) (by decide)

/-- C4 amended: in the scenario, `compute_indirect_bandgap(1, 2)` returns gap
`min(band2) - max(band1) = 1 - (-1) = 2`, with `lower_kpt` the k-point at index 0
(the first index where band1 attains its maximum `-1`) and `upper_kpt` the k-point at
index 1 (the first index where band2 attains its minimum `1`). -/
theorem scenario_indirect_bandgap_eval :
    compute_indirect_bandgap scenarioSt 1 2 =
      .ok (2, scenarioSt.points.getD 0 (0, 0, 0), scenarioSt.points.getD 1 (0, 0, 0)) ∧
    npArgmax (scenarioSt.energies 1) = 0 ∧ npArgmin (scenarioSt.energies 2) = 1 := by
  have h1 : scenarioSt.energies 1 = [-1, -2, -3/2] := rfl
  have h2 : scenarioSt.energies 2 = [2, 1, 3] := rfl
  have hmin : npMin [(2 : ℚ), 1, 3] = 1 := by norm_num [npMin, min_def]
  have hmax : npMax [(-1 : ℚ), -2, -3/2] = -1 := by norm_num [npMax, max_def]
  have hia : List.indexOf (-1 : ℚ) [-1, -2, -3/2] = 0 := by
    norm_num [List.indexOf_cons]
  have hib : List.indexOf (1 : ℚ) [2, 1, 3] = 1 := by
    norm_num [List.indexOf_cons]
  refine ⟨?_, ?_, ?_⟩
  · rw [compute_indirect_bandgap_eq scenarioSt 1 2 (by decide) (by decide) (by decide),
      h1, h2, npArgmin, npArgmax, hmin, hmax, hia, hib]
    norm_num
  · rw [h1, npArgmax, hmax, hia]
  · rw [h2, npArgmin, hmin, hib]

/-- C5: for both bandgap methods, any call with `n_lower > n_upper` or with a band index
outside the valid set `1..num_bands` fails with a `ValueError` and returns no result. -/
theorem bandgap_invalid_args_value_error (st : BandsData) (nl nu : Nat)
    (h : nu < nl ∨ nl ∉ bandIndices st ∨ nu ∉ bandIndices st) :
    compute_indirect_bandgap st nl nu = .error .valueError ∧
    compute_direct_bandgap st nl nu = .error .valueError := by
  by_cases hm : nl ∉ bandIndices st ∨ nu ∉ bandIndices st
  · unfold compute_indirect_bandgap compute_direct_bandgap
    rw [if_pos hm, if_pos hm]
    exact ⟨rfl, rfl⟩
  · have hlt : nu < nl := by
      rcases h with h | h | h
      · exact h
      · exact absurd (Or.inl h) hm
      · exact absurd (Or.inr h) hm
    unfold compute_indirect_bandgap compute_direct_bandgap
    rw [if_neg hm, if_neg hm, if_pos hlt, if_pos hlt]
    exact ⟨rfl, rfl⟩

/-- Witness for C5: `n_lower = 3 > 1 = n_upper` on `gapSt`, and also an out-of-range
index `0`. -/
theorem bandgap_invalid_args_value_error_witness :
    ((1 : Nat) < 3 ∨ 3 ∉ bandIndices gapSt ∨ 1 ∉ bandIndices gapSt) ∧
    compute_indirect_bandgap gapSt 3 1 = .error .valueError ∧
    compute_direct_bandgap gapSt 3 1 = .error .valueError :=
  ⟨Or.inl (by decide), bandgap_invalid_args_value_error gapSt 3 1 (Or.inl (by decide))⟩

theorem normSq_nonneg (v : Vec3) : 0 ≤ normSq v := by
  unfold normSq
  positivity

theorem distanceOK_iff (c p : Vec3) (maxd : ℚ) :
    distanceOK c p maxd ↔ Real.sqrt ((normSq (sub3 p c) : ℚ) : ℝ) < ((maxd : ℚ) : ℝ) := by
  constructor
  · rintro ⟨hm, hs⟩
    have hm' : (0 : ℝ) < (maxd : ℝ) := by exact_mod_cast hm
    rw [Real.sqrt_lt' hm']
    exact_mod_cast hs
  · intro h
    have hm' : (0 : ℝ) < (maxd : ℝ) :=
      lt_of_le_of_lt (Real.sqrt_nonneg _) h
    rw [Real.sqrt_lt' hm'] at h
    constructor
    · exact_mod_cast hm'
    · exact_mod_cast h

theorem parallelOK_iff (c p : Vec3) (h1 : normSq c ≠ 0) (h2 : normSq p ≠ 0) :
    parallelOK c p ↔
      ((dot3 c p : ℚ) : ℝ) /
          (Real.sqrt ((normSq c : ℚ) : ℝ) * Real.sqrt ((normSq p : ℚ) : ℝ)) - 1
        < ((epsilon : ℚ) : ℝ) := by
  have hc : (0 : ℝ) < ((normSq c : ℚ) : ℝ) := by
    exact_mod_cast lt_of_le_of_ne (normSq_nonneg c) (Ne.symm h1)
  have hp : (0 : ℝ) < ((normSq p : ℚ) : ℝ) := by
    exact_mod_cast lt_of_le_of_ne (normSq_nonneg p) (Ne.symm h2)
  have hN : (0 : ℝ) < Real.sqrt ((normSq c : ℚ) : ℝ) * Real.sqrt ((normSq p : ℚ) : ℝ) :=
    mul_pos (Real.sqrt_pos.mpr hc) (Real.sqrt_pos.mpr hp)
  have hNsq : (Real.sqrt ((normSq c : ℚ) : ℝ) * Real.sqrt ((normSq p : ℚ) : ℝ)) ^ 2
      = ((normSq c : ℚ) : ℝ) * ((normSq p : ℚ) : ℝ) := by
    rw [mul_pow, Real.sq_sqrt hc.le, Real.sq_sqrt hp.le]
  have he : (0 : ℝ) < ((epsilon : ℚ) : ℝ) + 1 := by norm_num [epsilon]
  rw [sub_lt_iff_lt_add, div_lt_iff hN]
  unfold parallelOK
  constructor
  · rintro ⟨-, -, hd | hd⟩
    · calc ((dot3 c p : ℚ) : ℝ) < 0 := by exact_mod_cast hd
        _ ≤ _ := (mul_pos he hN).le
    · rcases lt_or_le ((dot3 c p : ℚ) : ℝ) 0 with hneg | hpos
      · exact lt_of_lt_of_le hneg (mul_pos he hN).le
      · have hd' : ((dot3 c p : ℚ) : ℝ) ^ 2 <
            ((((1 + epsilon) ^ 2 * (normSq c * normSq p) : ℚ)) : ℝ) := by exact_mod_cast hd
        have hrhs : ((((1 + epsilon) ^ 2 * (normSq c * normSq p) : ℚ)) : ℝ)
            = ((((epsilon : ℚ) : ℝ) + 1) *
                (Real.sqrt ((normSq c : ℚ) : ℝ) * Real.sqrt ((normSq p : ℚ) : ℝ))) ^ 2 := by
          rw [mul_pow, hNsq]
          push_cast
          ring
        rw [hrhs] at hd'
        have hb : (0 : ℝ) < (((epsilon : ℚ) : ℝ) + 1) *
            (Real.sqrt ((normSq c : ℚ) : ℝ) * Real.sqrt ((normSq p : ℚ) : ℝ)) :=
          mul_pos he hN
        exact lt_of_pow_lt_pow_left 2 hb.le hd'
  · intro h
    refine ⟨h1, h2, ?_⟩
    rcases lt_or_le (dot3 c p) 0 with hneg | hpos
    · exact Or.inl hneg
    · right
      have hpos' : (0 : ℝ) ≤ ((dot3 c p : ℚ) : ℝ) := by exact_mod_cast hpos
      have hb : (0 : ℝ) < (((epsilon : ℚ) : ℝ) + 1) *
          (Real.sqrt ((normSq c : ℚ) : ℝ) * Real.sqrt ((normSq p : ℚ) : ℝ)) :=
        mul_pos he hN
      have hsq : ((dot3 c p : ℚ) : ℝ) ^ 2 <
          ((((epsilon : ℚ) : ℝ) + 1) *
            (Real.sqrt ((normSq c : ℚ) : ℝ) * Real.sqrt ((normSq p : ℚ) : ℝ))) ^ 2 := by
        exact pow_lt_pow_left h hpos' (by norm_num)
      have hsq' : ((dot3 c p : ℚ) : ℝ) ^ 2 <
          ((((1 + epsilon) ^ 2 * (normSq c * normSq p) : ℚ)) : ℝ) := by
        have hrhs : ((((1 + epsilon) ^ 2 * (normSq c * normSq p) : ℚ)) : ℝ)
            = ((((epsilon : ℚ) : ℝ) + 1) *
                (Real.sqrt ((normSq c : ℚ) : ℝ) * Real.sqrt ((normSq p : ℚ) : ℝ))) ^ 2 := by
          rw [mul_pow, hNsq]
          push_cast
          ring
        rw [hrhs]
        exact hsq
      exact_mod_cast hsq'

theorem SSR_nil_left (ys : List ℝ) (E0 θ : ℝ) : SSR [] ys E0 θ = 0 := by
  simp [SSR]

theorem SSR_nil_right (xs : List ℝ) (E0 θ : ℝ) : SSR xs [] E0 θ = 0 := by
  simp [SSR]

theorem SSR_cons (x y E0 θ : ℝ) (xs ys : List ℝ) :
    SSR (x :: xs) (y :: ys) E0 θ = (θ * x + E0 - y) ^ 2 + SSR xs ys E0 θ := by
  simp [SSR]

/-- The residual sum `SSR` is a quadratic polynomial in the free parameter. -/
theorem ssr_quadratic (E0 θ : ℝ) : ∀ xs ys : List ℝ,
    SSR xs ys E0 θ =
      θ ^ 2 * (List.zipWith (fun x _ => x ^ 2) xs ys).sum
        - 2 * θ * (List.zipWith (fun x y => x * (y - E0)) xs ys).sum
        + (List.zipWith (fun x y => (E0 - y) ^ 2) xs ys).sum := by
  intro xs
  induction xs with
  | nil =>
      intro ys
      simp [SSR_nil_left]
  | cons x xs ih =>
      intro ys
      cases ys with
      | nil => simp [SSR_nil_right]
      | cons y ys =>
          rw [SSR_cons]
          simp only [List.zipWith_cons_cons, List.sum_cons]
          rw [ih ys]
          ring

theorem zip_sq_of_length_eq : ∀ {xs ys : List ℝ}, xs.length = ys.length →
    (List.zipWith (fun x _ => x ^ 2) xs ys).sum = (xs.map fun x => x ^ 2).sum
  | [], [], _ => by simp
  | x :: xs, y :: ys, h => by
      simp only [List.zipWith_cons_cons, List.sum_cons, List.map_cons]
      rw [zip_sq_of_length_eq (by simpa using h)]
  | [], _ :: _, h => by simp at h
  | _ :: _, [], h => by simp at h

/-- Completing the square: `SSR` at any parameter exceeds `SSR` at `fitA` by
`(Σ xᵢ²)·(θ - fitA)²`, so `fitA` is the unique least-squares minimizer. -/
theorem ssr_shift (xs ys : List ℝ) (E0 : ℝ) (h : xs.length = ys.length)
    (hA : (xs.map fun x => x ^ 2).sum ≠ 0) (θ : ℝ) :
    SSR xs ys E0 θ =
      SSR xs ys E0 (fitA xs ys E0) +
        (xs.map fun x => x ^ 2).sum * (θ - fitA xs ys E0) ^ 2 := by
  have hq1 := ssr_quadratic E0 θ xs ys
  have hq2 := ssr_quadratic E0 (fitA xs ys E0) xs ys
  rw [zip_sq_of_length_eq h] at hq1 hq2
  have hfa : fitA xs ys E0 =
      (List.zipWith (fun x y => x * (y - E0)) xs ys).sum / (xs.map fun x => x ^ 2).sum :=
    rfl
  rw [hq1, hq2, hfa]
  field_simp
  ring

theorem sumSq_nonneg (xs : List ℝ) : 0 ≤ (xs.map fun x => x ^ 2).sum := by
  refine List.sum_nonneg ?_
  intro a ha
  rcases List.mem_map.mp ha with ⟨x, -, rfl⟩
  positivity

/-- Pulling the common scale factor out of the sum of squared regressors. -/
theorem sumSq_scaled (ds : List ℚ) (s : ℝ) :
    (((ds.map fun d : ℚ => (d : ℝ) * s).map fun x => x ^ 2)).sum
      = s ^ 2 * (((ds.map fun d => d ^ 2).sum : ℚ) : ℝ) := by
  induction ds with
  | nil => simp
  | cons d ds ih =>
      simp only [List.map_cons, List.sum_cons] at *
      rw [ih]
      push_cast
      ring

/-- C7: whenever the center k-point resolves (index `i`), the regressors are not all zero
and `alat ≠ 0`, `compute_effective_mass` (with a callable `show_plot`, the only way the
method returns) returns `1 / (2a)` where `a` is the coefficient of the constrained
one-free-parameter least-squares fit `E(q²) = a·q² + E₀` with `E₀` fixed to the stored
(converted) center energy: `a` minimizes the sum of squared residuals `SSR`, and it is
the unique minimizer. -/
theorem effective_mass_constrained_fit (st : BandsData) (n : Nat) (c : Vec3) (maxd : ℚ)
    (b : Bool) (i : Nat) (hw : kptWhere st.points c = some i)
    (hD : ((fitDs st c maxd).map fun d => d ^ 2).sum ≠ 0) (hal : st.alat ≠ 0) :
    ∃ a : ℝ,
      compute_effective_mass st n c maxd (.callable b) = .ok (1 / (2 * a)) ∧
      a = fitA (fitXs st c maxd) ((fitYs st n c maxd).map fun y : ℚ => (y : ℝ))
            ((E0val st n i : ℚ) : ℝ) ∧
      (∀ θ : ℝ,
        SSR (fitXs st c maxd) ((fitYs st n c maxd).map fun y : ℚ => (y : ℝ))
            ((E0val st n i : ℚ) : ℝ) a ≤
          SSR (fitXs st c maxd) ((fitYs st n c maxd).map fun y : ℚ => (y : ℝ))
            ((E0val st n i : ℚ) : ℝ) θ) ∧
      (∀ θ : ℝ,
        SSR (fitXs st c maxd) ((fitYs st n c maxd).map fun y : ℚ => (y : ℝ))
            ((E0val st n i : ℚ) : ℝ) θ =
          SSR (fitXs st c maxd) ((fitYs st n c maxd).map fun y : ℚ => (y : ℝ))
            ((E0val st n i : ℚ) : ℝ) a → θ = a) := by
  have hs : kScale st ≠ 0 := by
    refine pow_ne_zero 2 (div_ne_zero (mul_ne_zero two_ne_zero Real.pi_ne_zero) ?_)
    exact_mod_cast hal
  have hA : ((fitXs st c maxd).map fun x => x ^ 2).sum ≠ 0 := by
    rw [fitXs, sumSq_scaled]
    exact mul_ne_zero (pow_ne_zero 2 hs) (by exact_mod_cast hD)
  have hlen : (fitXs st c maxd).length =
      ((fitYs st n c maxd).map fun y : ℚ => (y : ℝ)).length := by
    simp [fitXs, fitDs, fitYs]
  have hApos : 0 < ((fitXs st c maxd).map fun x => x ^ 2).sum :=
    lt_of_le_of_ne (sumSq_nonneg _) (Ne.symm hA)
  have key := ssr_shift (fitXs st c maxd) ((fitYs st n c maxd).map fun y : ℚ => (y : ℝ))
    ((E0val st n i : ℚ) : ℝ) hlen hA
  refine ⟨fitA (fitXs st c maxd) ((fitYs st n c maxd).map fun y : ℚ => (y : ℝ))
    ((E0val st n i : ℚ) : ℝ), ?_, rfl, ?_, ?_⟩
  · unfold compute_effective_mass
    rw [hw]
    show Except.ok (1 / (fitA (fitXs st c maxd)
      ((fitYs st n c maxd).map fun y : ℚ => (y : ℝ)) ((E0val st n i : ℚ) : ℝ) * 2)) = _
    rw [mul_comm]
  · intro θ
    rw [key θ]
    exact le_add_of_nonneg_right (mul_nonneg hApos.le (sq_nonneg _))
  · intro θ hθ
    rw [key θ] at hθ
    have hz : ((fitXs st c maxd).map fun x => x ^ 2).sum *
        (θ - fitA (fitXs st c maxd) ((fitYs st n c maxd).map fun y : ℚ => (y : ℝ))
          ((E0val st n i : ℚ) : ℝ)) ^ 2 = 0 := by
      linarith
    rcases mul_eq_zero.mp hz with h | h
    · exact absurd h hA
    · exact sub_eq_zero.mp (pow_eq_zero_iff two_ne_zero |>.mp h)

theorem effSt_selected : selectedIndices effSt (1, 0, 0) 2 = [0, 1] := by
  have hr : List.range effSt.points.length = [0, 1] := rfl
  have hp0 : effSt.points.getD 0 (0, 0, 0) = (1, 0, 0) := rfl
  have hp1 : effSt.points.getD 1 (0, 0, 0) = (0, 1, 0) := rfl
  have h0d : distanceOK (1, 0, 0) (1, 0, 0) 2 := by
    norm_num [distanceOK, normSq, sub3]
  have h0p : parallelOK (1, 0, 0) (1, 0, 0) := by
    norm_num [parallelOK, normSq, dot3, epsilon]
  have h1d : distanceOK (1, 0, 0) (0, 1, 0) 2 := by
    norm_num [distanceOK, normSq, sub3]
  have h1p : parallelOK (1, 0, 0) (0, 1, 0) := by
    norm_num [parallelOK, normSq, dot3, epsilon]
  have hq0 : effSt.points[0]?.getD ((0 : ℚ), 0, 0) = ((1 : ℚ), 0, 0) := rfl
  have hq1 : effSt.points[1]?.getD ((0 : ℚ), 0, 0) = ((0 : ℚ), 1, 0) := rfl
  rw [selectedIndices, hr]
  simp only [List.filter, List.getD_eq_getElem?_getD, hq0, hq1,
    decide_eq_true h0d, decide_eq_true h0p, decide_eq_true h1d, decide_eq_true h1p,
    Bool.and_self]

/-- C6: failing input for the neighborhood-selection claim.  With center `(1,0,0)` and
`max_distance = 2`, the perpendicular k-point `(0,1,0)` is within distance (√2 < 2) and
passes the parallel test of line 160 (`cos - 1 < ε` holds vacuously: here
`cos = 0`), so it IS selected into the fitted neighborhood — although it is not collinear
with the center direction (`|cos - 1| = 1 ≥ ε`), which the claim says excludes it. -/
theorem parallel_filter_admits_non_collinear_point :
    selectedIndices effSt (1, 0, 0) 2 = [0, 1] ∧
    effSt.points.getD 1 (0, 0, 0) = (0, 1, 0) ∧
    distanceOK (1, 0, 0) (0, 1, 0) 2 ∧
    parallelOK (1, 0, 0) (0, 1, 0) ∧
    ¬ specCollinear (1, 0, 0) (0, 1, 0) := by
  refine ⟨effSt_selected, rfl, ?_, ?_, ?_⟩
  · norm_num [distanceOK, normSq, sub3]
  · norm_num [parallelOK, normSq, dot3, epsilon]
  · unfold specCollinear
    have hd : dot3 (1, 0, 0) (0, 1, 0) = 0 := by norm_num [dot3]
    have hn1 : normSq ((1 : ℚ), 0, 0) = 1 := by norm_num [normSq]
    have hn2 : normSq ((0 : ℚ), 1, 0) = 1 := by norm_num [normSq]
    rw [hd, hn1, hn2]
    norm_num [Real.sqrt_one, epsilon]

/-- C8: with a boolean `show_plot` argument — its documented contract, either value —
`compute_effective_mass` raises `TypeError` at line 175 (`show_plot()` invokes the
boolean) and returns no effective mass at all. -/
theorem effective_mass_show_plot_type_error :
    compute_effective_mass effSt 1 (1, 0, 0) 2 (.bool true) = .error .typeError ∧
    compute_effective_mass effSt 1 (1, 0, 0) 2 (.bool false) = .error .typeError := by
  have hw : kptWhere effSt.points (1, 0, 0) = some 0 := by decide
  constructor <;> (unfold compute_effective_mass; rw [hw])

theorem fitSt_selected : selectedIndices fitSt (1, 0, 0) 2 = [0, 1] := by
  have hr : List.range fitSt.points.length = [0, 1] := rfl
  have hp0 : fitSt.points.getD 0 (0, 0, 0) = (1, 0, 0) := rfl
  have hp1 : fitSt.points.getD 1 (0, 0, 0) = (2, 0, 0) := rfl
  have h0d : distanceOK (1, 0, 0) (1, 0, 0) 2 := by
    norm_num [distanceOK, normSq, sub3]
  have h0p : parallelOK (1, 0, 0) (1, 0, 0) := by
    norm_num [parallelOK, normSq, dot3, epsilon]
  have h1d : distanceOK (1, 0, 0) (2, 0, 0) 2 := by
    norm_num [distanceOK, normSq, sub3]
  have h1p : parallelOK (1, 0, 0) (2, 0, 0) := by
    norm_num [parallelOK, normSq, dot3, epsilon]
  have hq0 : fitSt.points[0]?.getD ((0 : ℚ), 0, 0) = ((1 : ℚ), 0, 0) := rfl
  have hq1 : fitSt.points[1]?.getD ((0 : ℚ), 0, 0) = ((2 : ℚ), 0, 0) := rfl
  rw [selectedIndices, hr]
  simp only [List.filter, List.getD_eq_getElem?_getD, hq0, hq1,
    decide_eq_true h0d, decide_eq_true h0p, decide_eq_true h1d, decide_eq_true h1p,
    Bool.and_self]

theorem fitSt_sumSq : ((fitDs fitSt (1, 0, 0) 2).map fun d => d ^ 2).sum ≠ 0 := by
  have hp0 : fitSt.points.getD 0 (0, 0, 0) = (1, 0, 0) := rfl
  have hp1 : fitSt.points.getD 1 (0, 0, 0) = (2, 0, 0) := rfl
  rw [fitDs, fitSt_selected]
  simp only [List.map_cons, List.map_nil, hp0, hp1]
  norm_num [normSq, sub3]

/-- Witness for C7 at the concrete state `fitSt`, band 1, center `(1,0,0)`,
`max_distance = 2`. -/
theorem effective_mass_constrained_fit_witness :
    (kptWhere fitSt.points (1, 0, 0) = some 0 ∧
      ((fitDs fitSt (1, 0, 0) 2).map fun d => d ^ 2).sum ≠ 0 ∧ fitSt.alat ≠ 0) ∧
    (∃ a : ℝ,
      compute_effective_mass fitSt 1 (1, 0, 0) 2 (.callable false) = .ok (1 / (2 * a)) ∧
      a = fitA (fitXs fitSt (1, 0, 0) 2) ((fitYs fitSt 1 (1, 0, 0) 2).map fun y : ℚ => (y : ℝ))
            ((E0val fitSt 1 0 : ℚ) : ℝ) ∧
      (∀ θ : ℝ,
        SSR (fitXs fitSt (1, 0, 0) 2) ((fitYs fitSt 1 (1, 0, 0) 2).map fun y : ℚ => (y : ℝ))
            ((E0val fitSt 1 0 : ℚ) : ℝ) a ≤
          SSR (fitXs fitSt (1, 0, 0) 2) ((fitYs fitSt 1 (1, 0, 0) 2).map fun y : ℚ => (y : ℝ))
            ((E0val fitSt 1 0 : ℚ) : ℝ) θ) ∧
      (∀ θ : ℝ,
        SSR (fitXs fitSt (1, 0, 0) 2) ((fitYs fitSt 1 (1, 0, 0) 2).map fun y : ℚ => (y : ℝ))
            ((E0val fitSt 1 0 : ℚ) : ℝ) θ =
          SSR (fitXs fitSt (1, 0, 0) 2) ((fitYs fitSt 1 (1, 0, 0) 2).map fun y : ℚ => (y : ℝ))
            ((E0val fitSt 1 0 : ℚ) : ℝ) a → θ = a)) :=
  ⟨⟨by decide, fitSt_sumSq, by decide⟩,
   effective_mass_constrained_fit fitSt 1 (1, 0, 0) 2 false 0 (by decide) fitSt_sumSq
     (by decide)⟩

/-- C9: whenever any of the three referenced files is absent, `from_hdf5_yaml` fails with
a not-found error naming a missing file, and no file has been opened — the failure comes
before any file access or computation. -/
theorem from_hdf5_yaml_fail_fast (fs : FileSystem) (cdyna_path tet_path yaml_path : String)
    (h : fs.isfile yaml_path = false ∨ fs.isfile cdyna_path = false ∨
      fs.isfile tet_path = false) :
    ∃ p, fs.isfile p = false ∧
      (from_hdf5_yaml fs cdyna_path tet_path yaml_path).1 = some p ∧
      (from_hdf5_yaml fs cdyna_path tet_path yaml_path).2 = [] := by
  cases hy : fs.isfile yaml_path with
  | false =>
      exact ⟨yaml_path, hy, by simp [from_hdf5_yaml, hy], by simp [from_hdf5_yaml, hy]⟩
  | true =>
      cases hc : fs.isfile cdyna_path with
      | false =>
          exact ⟨cdyna_path, hc, by simp [from_hdf5_yaml, hy, hc],
            by simp [from_hdf5_yaml, hy, hc]⟩
      | true =>
          cases ht : fs.isfile tet_path with
          | false =>
              exact ⟨tet_path, ht, by simp [from_hdf5_yaml, hy, hc, ht],
                by simp [from_hdf5_yaml, hy, hc, ht]⟩
          | true =>
              rcases h with h | h | h <;> simp_all

/-- Witness for C9: a filesystem with no files at all. -/
theorem from_hdf5_yaml_fail_fast_witness :
    ((FileSystem.mk fun _ => false).isfile "pert_output.yml" = false ∨
      (FileSystem.mk fun _ => false).isfile "cdyna.h5" = false ∨
      (FileSystem.mk fun _ => false).isfile "tet.h5" = false) ∧
    (∃ p, (FileSystem.mk fun _ => false).isfile p = false ∧
      (from_hdf5_yaml (FileSystem.mk fun _ => false) "cdyna.h5" "tet.h5"
        "pert_output.yml").1 = some p ∧
      (from_hdf5_yaml (FileSystem.mk fun _ => false) "cdyna.h5" "tet.h5"
        "pert_output.yml").2 = []) :=
  ⟨Or.inl rfl,
   from_hdf5_yaml_fail_fast (FileSystem.mk fun _ => false) "cdyna.h5" "tet.h5"
     "pert_output.yml" (Or.inl rfl)⟩

theorem popKey_none_iff {V : Type} (k : String) :
    ∀ d : List (String × V), popKey k d = none ↔ k ∉ d.map Prod.fst
  | [] => by simp [popKey]
  | (k', v) :: rest => by
      have ih := popKey_none_iff k rest
      by_cases h : k' = k
      · subst h
        simp [popKey]
      · simp only [popKey, if_neg h, List.map_cons, List.mem_cons]
        cases hrec : popKey k rest with
        | none =>
            constructor
            · intro _ hcon
              rcases hcon with hcon | hcon
              · exact h hcon.symm
              · exact (ih.mp hrec) hcon
            · intro _
              rfl
        | some p =>
            have hmem : k ∈ rest.map Prod.fst := by
              by_contra hno
              rw [← ih] at hno
              rw [hrec] at hno
              cases hno
            constructor
            · intro hcon
              cases hcon
            · intro hcon
              exact absurd (Or.inr hmem) hcon

theorem popKey_some_map_fst {V : Type} (k : String) :
    ∀ (d : List (String × V)) (v : V) (d' : List (String × V)),
      popKey k d = some (v, d') → d'.map Prod.fst = (d.map Prod.fst).erase k
  | [], v, d' => by simp [popKey]
  | (k', w) :: rest, v, d' => by
      intro hc
      by_cases h : k' = k
      · subst h
        simp only [popKey, eq_self_iff_true, if_true, Option.some.injEq] at hc
        obtain ⟨-, rfl⟩ := Prod.ext_iff.mp hc
        rw [List.map_cons, List.erase_cons_head]
      · simp only [popKey, if_neg h] at hc
        cases hrec : popKey k rest with
        | none =>
            rw [hrec] at hc
            cases hc
        | some p =>
            obtain ⟨v0, rest0⟩ := p
            rw [hrec] at hc
            injection hc with hc
            obtain ⟨-, rfl⟩ := Prod.ext_iff.mp hc
            have ihr := popKey_some_map_fst k rest v0 rest0 hrec
            rw [List.map_cons, List.map_cons,
              List.erase_cons_tail (by simpa using h), ihr]

theorem popAll_fst_subset {V : Type} :
    ∀ (ks : List String) (d : List (String × V)) (vs : List V) (d' : List (String × V)),
      popAll ks d = some (vs, d') → d'.map Prod.fst ⊆ d.map Prod.fst
  | [], d, vs, d' => by
      intro hc
      simp only [popAll, Option.some.injEq] at hc
      obtain ⟨-, rfl⟩ := Prod.ext_iff.mp hc
      exact fun a ha => ha
  | k :: ks, d, vs, d' => by
      intro hc
      simp only [popAll] at hc
      split at hc
      · cases hc
      · next v0 d1 hpop =>
          split at hc
          · cases hc
          · next vs1 d2 hall =>
              injection hc with hc
              obtain ⟨-, rfl⟩ := Prod.ext_iff.mp hc
              have h1 : d1.map Prod.fst = (d.map Prod.fst).erase k :=
                popKey_some_map_fst k d v0 d1 hpop
              have h2 := popAll_fst_subset ks d1 vs1 d2 hall
              intro a ha
              exact List.erase_subset _ _ (h1 ▸ h2 ha)

theorem popAll_removes {V : Type} :
    ∀ (ks : List String) (d : List (String × V)) (vs : List V) (d' : List (String × V)),
      (d.map Prod.fst).Nodup → popAll ks d = some (vs, d') →
      ∀ k ∈ ks, k ∉ d'.map Prod.fst
  | [], d, vs, d' => by
      intro _ _ k hk
      cases hk
  | k0 :: ks, d, vs, d' => by
      intro hnd hc
      simp only [popAll] at hc
      split at hc
      · cases hc
      · next v0 d1 hpop =>
          split at hc
          · cases hc
          · next vs1 d2 hall =>
              injection hc with hc
              obtain ⟨-, rfl⟩ := Prod.ext_iff.mp hc
              have h1 : d1.map Prod.fst = (d.map Prod.fst).erase k0 :=
                popKey_some_map_fst k0 d v0 d1 hpop
              have hnd1 : (d1.map Prod.fst).Nodup := by
                rw [h1]
                exact hnd.erase k0
              intro k hk
              rcases List.mem_cons.mp hk with rfl | hk
              · intro hmem
                have := popAll_fst_subset ks d1 vs1 d2 hall hmem
                rw [h1] at this
                exact hnd.not_mem_erase this
              · exact popAll_removes ks d1 vs1 d2 hnd1 hall k hk

/-- C10: a successful construction consumes the seven bands entries from the supplied
dictionary — afterwards the dictionary no longer contains any of those keys — and a
second construction from the same dictionary object fails (with `KeyError` on the first
pop). -/
theorem bands_init_consumes_keys {V : Type} (d : PertDict V) (vs : List V)
    (d' : PertDict V) (hnd : (d.bands.map Prod.fst).Nodup)
    (h : bandsInit d = .ok (vs, d')) :
    (∀ k ∈ bandsKeys, k ∉ d'.bands.map Prod.fst) ∧ bandsInit d' = .error .keyError := by
  unfold bandsInit at h
  by_cases hm : d.calc_mode = "bands"
  · rw [if_pos hm] at h
    cases hall : popAll (V := V) bandsKeys d.bands with
    | none =>
        rw [hall] at h
        cases h
    | some p =>
        obtain ⟨vs0, b'⟩ := p
        rw [hall] at h
        injection h with h
        obtain ⟨-, rfl⟩ := Prod.ext_iff.mp h
        have hrem := popAll_removes bandsKeys d.bands vs0 b' hnd hall
        refine ⟨hrem, ?_⟩
        have hpop : popKey (V := V) "k-path coordinate units" b' = none :=
          (popKey_none_iff _ _).mpr (hrem _ (by simp [bandsKeys]))
        simp [bandsInit, hm, bandsKeys, popAll, hpop]
  · rw [if_neg hm] at h
    cases h

/-- Witness for C10 on `exDict`. -/
theorem bands_init_consumes_keys_witness :
    ((exDict.bands.map Prod.fst).Nodup ∧
      bandsInit exDict = .ok ([10, 11, 12, 13, 14, 15, 16],
        { calc_mode := "bands", bands := [("number of symmetry lines", 17)] })) ∧
    ((∀ k ∈ bandsKeys,
        k ∉ ({ calc_mode := "bands", bands := [("number of symmetry lines", 17)] } :
          PertDict Nat).bands.map Prod.fst) ∧
      bandsInit ({ calc_mode := "bands", bands := [("number of symmetry lines", 17)] } :
        PertDict Nat) = .error .keyError) :=
  ⟨⟨by decide, by rfl⟩,
   bands_init_consumes_keys exDict [10, 11, 12, 13, 14, 15, 16]
     { calc_mode := "bands", bands := [("number of symmetry lines", 17)] }
     (by decide) (by rfl)⟩

end Perturbopy

